import Mathlib

/-
Verification of the user-notes-manager backend core:
the in-memory notes repository (src/api/repositories/notes_repo.py),
the data model (src/api/models.py) and the route handlers
(src/api/routes/notes.py).

Modelling choices:
- UUIDs are modelled as natural numbers; `uuid4()` freshness is modelled by a
  generator counter `nextId` threaded through the repository state, with the
  invariant that every stored id is below the counter.
- `datetime.utcnow()` is modelled as a natural-number clock passed explicitly
  to each mutating operation; reachability constrains it to be non-decreasing
  across operations, matching a monotone wall clock.
- The Python `dict` keyed by UUID is modelled as an association list in
  insertion order: writing an existing key replaces the entry in place,
  writing a new key appends at the end, exactly the CPython dict order that
  the stable `sorted` in `list_notes` observes.
- Exceptions (`NotFoundError`, `ValidationError`) become an `Except` value
  carrying the message string built by the source.
- Python's built-in `sorted` (a stable sort) is modelled by `List.mergeSort`,
  which is also stable.
-/

namespace NotesApp

/-- `models.Note`: the sole entity.  Fields exactly as in the pydantic model
(`id`, `title`, `content`, `created_at`, `updated_at`). -/
structure Note where
  id : Nat
  title : String
  content : String
  created_at : Nat
  updated_at : Nat
deriving DecidableEq

/-- `models.NoteCreate`: payload for creating a note (title and content). -/
structure NoteCreate where
  title : String
  content : String
deriving DecidableEq

/-- `models.NoteUpdate`: payload for updating a note; both fields optional
(`None` = field omitted). -/
structure NoteUpdate where
  title : Option String
  content : Option String
deriving DecidableEq

/-- Lookup in the insertion-ordered dict model (first matching key). -/
def dictGet {α : Type} : List (Nat × α) → Nat → Option α
  | [], _ => none
  | (k, v) :: rest, i => if k = i then some v else dictGet rest i

/-- `d[k] = v` on a Python dict: replace the entry in place if the key is
present, otherwise append at the end. -/
def dictInsert {α : Type} : List (Nat × α) → Nat → α → List (Nat × α)
  | [], i, v => [(i, v)]
  | (k, w) :: rest, i, v =>
    if k = i then (i, v) :: rest else (k, w) :: dictInsert rest i v

/-- `del d[k]` on a Python dict: remove the entry with the given key. -/
def dictErase {α : Type} : List (Nat × α) → Nat → List (Nat × α)
  | [], _ => []
  | (k, w) :: rest, i => if k = i then rest else (k, w) :: dictErase rest i

/-- `d.keys()` in insertion order. -/
def dictKeys {α : Type} (s : List (Nat × α)) : List Nat := s.map Prod.fst

/-- `d.values()` in insertion order. -/
def dictValues {α : Type} (s : List (Nat × α)) : List α := s.map Prod.snd

/-- The message built by `NotesRepository.get_note` / `delete_note`:
`f"Note with id {note_id} not found"`. -/
def notFoundMessage (i : Nat) : String :=
  "Note with id " ++ toString i ++ " not found"

/-- The message built by `NotesRepository.update_note` when both optional
fields are absent. -/
def atLeastOneFieldMessage : String :=
  "At least one of \x27title\x27 or \x27content\x27 must be provided"

/-- Domain errors raised by the repository: `NotFoundError` and
`ValidationError`, each carrying its message string. -/
inductive RepoError where
  | notFound (msg : String)
  | validation (msg : String)
deriving DecidableEq

/-- `Note.new_from_create`: builds a Note from the payload with a generated
id and `created_at = updated_at = now`.  The generated `uuid4()` value and
`datetime.utcnow()` are passed explicitly. -/
def Note.new_from_create (data : NoteCreate) (id : Nat) (now : Nat) : Note :=
  { id := id
    title := data.title
    content := data.content
    created_at := now
    updated_at := now }

/-- `NotesRepository`: the in-memory store.  `store` is the `_store` dict;
`nextId` is the state of the uuid generator (models `uuid4()` freshness). -/
structure NotesRepository where
  store : List (Nat × Note)
  nextId : Nat
deriving DecidableEq

/-- `list_notes`: all notes sorted by `created_at` ascending.  Python's
`sorted` is stable, modelled by the stable `List.mergeSort`. -/
def NotesRepository.list_notes (r : NotesRepository) : List Note :=
  (dictValues r.store).mergeSort (fun a b => decide (a.created_at ≤ b.created_at))

/-- `create_note`: build a new note via `Note.new_from_create` and store it
under its id.  Returns the note and the updated repository. -/
def NotesRepository.create_note (r : NotesRepository) (payload : NoteCreate)
    (now : Nat) : Note × NotesRepository :=
  let note := Note.new_from_create payload r.nextId now
  (note, { store := dictInsert r.store note.id note, nextId := r.nextId + 1 })

/-- `get_note`: retrieve by id, raising `NotFoundError` when absent. -/
def NotesRepository.get_note (r : NotesRepository) (note_id : Nat) :
    Except RepoError Note :=
  match dictGet r.store note_id with
  | none => .error (.notFound (notFoundMessage note_id))
  | some note => .ok note

/-- `update_note`: fetch the note (raising `NotFoundError` if absent), then
require at least one supplied field (`ValidationError` otherwise), then
`model_copy` with the supplied fields and `updated_at = now`, storing the
result back under the same id. -/
def NotesRepository.update_note (r : NotesRepository) (note_id : Nat)
    (payload : NoteUpdate) (now : Nat) :
    Except RepoError (Note × NotesRepository) :=
  match r.get_note note_id with
  | .error e => .error e
  | .ok note =>
    if payload.title.isNone && payload.content.isNone then
      .error (.validation atLeastOneFieldMessage)
    else
      let updated : Note :=
        { note with
          title := payload.title.getD note.title
          content := payload.content.getD note.content
          updated_at := now }
      .ok (updated, { r with store := dictInsert r.store note_id updated })

/-- `delete_note`: raise `NotFoundError` when the id is absent, otherwise
delete the entry. -/
def NotesRepository.delete_note (r : NotesRepository) (note_id : Nat) :
    Except RepoError NotesRepository :=
  if (dictGet r.store note_id).isNone then
    .error (.notFound (notFoundMessage note_id))
  else
    .ok { r with store := dictErase r.store note_id }

/-- Response bodies produced by the route handlers. -/
inductive Body where
  | note (n : Note)
  | notes (l : List Note)
  | err (detail : String)
  | empty
deriving DecidableEq

/-- An HTTP response: status code and body. -/
structure Response where
  status : Nat
  body : Body
deriving DecidableEq

namespace Routes

/-- `GET /notes` handler: returns 200 with the sorted list; reads only. -/
def list_notes (repo : NotesRepository) : Response × NotesRepository :=
  (⟨200, .notes repo.list_notes⟩, repo)

/-- `POST /notes` handler: 201 with the created note.  (The handler also
catches `ValidationError` as 400, but `create_note` never raises it.) -/
def create_note (payload : NoteCreate) (repo : NotesRepository) (now : Nat) :
    Response × NotesRepository :=
  let res := repo.create_note payload now
  (⟨201, .note res.1⟩, res.2)

/-- `GET /notes/{id}` handler: 200 with the note, or `NotFoundError` mapped
to 404 with the exception message.  Any other exception would escape the
handler and surface as a framework 500. -/
def get_note (note_id : Nat) (repo : NotesRepository) :
    Response × NotesRepository :=
  match repo.get_note note_id with
  | .ok n => (⟨200, .note n⟩, repo)
  | .error (.notFound m) => (⟨404, .err m⟩, repo)
  | .error (.validation m) => (⟨500, .err m⟩, repo)

/-- `PUT /notes/{id}` handler: 200 with the updated note, `NotFoundError`
mapped to 404, `ValidationError` mapped to 400, message strings preserved. -/
def update_note (note_id : Nat) (payload : NoteUpdate) (repo : NotesRepository)
    (now : Nat) : Response × NotesRepository :=
  match repo.update_note note_id payload now with
  | .ok res => (⟨200, .note res.1⟩, res.2)
  | .error (.notFound m) => (⟨404, .err m⟩, repo)
  | .error (.validation m) => (⟨400, .err m⟩, repo)

/-- `DELETE /notes/{id}` handler: 204 with empty body on success,
`NotFoundError` mapped to 404.  A `ValidationError` would escape as 500 but
`delete_note` never raises it. -/
def delete_note (note_id : Nat) (repo : NotesRepository) :
    Response × NotesRepository :=
  match repo.delete_note note_id with
  | .ok repo' => (⟨204, .empty⟩, repo')
  | .error (.notFound m) => (⟨404, .err m⟩, repo)
  | .error (.validation m) => (⟨500, .err m⟩, repo)

end Routes

/-- Repository states reachable from the fresh repository by sequences of
operations under a monotone clock.  `Reachable r t` means state `r` is
reachable with current clock reading `t`; `tick` covers pure time passage
and the operations that leave the state unchanged (list, get, and every
failed operation, since the Python code raises before mutating). -/
inductive Reachable : NotesRepository → Nat → Prop where
  | init : Reachable ⟨[], 0⟩ 0
  | tick {r : NotesRepository} {t t' : Nat} :
      Reachable r t → t ≤ t' → Reachable r t'
  | create {r : NotesRepository} {t t' : Nat} {p : NoteCreate} :
      Reachable r t → t ≤ t' → Reachable (r.create_note p t').2 t'
  | update {r r' : NotesRepository} {t t' : Nat} {i : Nat} {p : NoteUpdate}
      {n : Note} :
      Reachable r t → t ≤ t' → r.update_note i p t' = .ok (n, r') →
      Reachable r' t'
  | delete {r r' : NotesRepository} {t : Nat} {i : Nat} :
      Reachable r t → r.delete_note i = .ok r' → Reachable r' t

/-- The repository invariant maintained by every operation: store keys are
distinct, each stored note's `id` field equals its key, ids are below the
generator counter, `created_at ≤ updated_at`, and `updated_at` never exceeds
the clock. -/
def StoreInv (r : NotesRepository) (t : Nat) : Prop :=
  (dictKeys r.store).Nodup ∧
  ∀ p ∈ r.store, p.2.id = p.1 ∧ p.1 < r.nextId ∧
    p.2.created_at ≤ p.2.updated_at ∧ p.2.updated_at ≤ t

namespace RefModel

/-
A refinement of the repository that makes Python object identity explicit,
used to settle the ownership question.  Note objects are mutable pydantic
models (pydantic v2 models allow attribute assignment by default); they live
in a heap of cells addressed by references, and `_store` maps each id to a
reference.  `get_note`/`create_note` return the stored reference itself —
the Python code performs no copy on read — while `update_note` calls
`model_copy`, which allocates a fresh object and installs it in the store,
leaving the old cell untouched.
-/

/-- A reference: the identity of a Python Note object. -/
abbrev Ref := Nat

/-- Repository state with an explicit object heap: `store` maps note ids to
references, `heap` maps references to Note values, `nextRef` is the
allocator. -/
structure HeapRepo where
  store : List (Nat × Ref)
  heap : List (Ref × Note)
  nextId : Nat
  nextRef : Nat
deriving DecidableEq

/-- `create_note` with explicit allocation: the new Note object gets a fresh
cell and the caller receives that very reference. -/
def create_note (r : HeapRepo) (payload : NoteCreate) (now : Nat) :
    Ref × HeapRepo :=
  let note := Note.new_from_create payload r.nextId now
  (r.nextRef,
   { store := dictInsert r.store note.id r.nextRef
     heap := dictInsert r.heap r.nextRef note
     nextId := r.nextId + 1
     nextRef := r.nextRef + 1 })

/-- `get_note` with explicit identity: the caller receives the reference
stored in `_store`, not a copy of the object. -/
def get_note (r : HeapRepo) (note_id : Nat) : Except RepoError Ref :=
  match dictGet r.store note_id with
  | none => .error (.notFound (notFoundMessage note_id))
  | some ρ => .ok ρ

/-- External code mutating a Note object it obtained from the repository:
`note.title = T` (plain attribute assignment on a pydantic v2 model).  This
writes through the reference into the heap cell; the repository is not
involved. -/
def setTitle (r : HeapRepo) (ρ : Ref) (T : String) : HeapRepo :=
  match dictGet r.heap ρ with
  | none => r
  | some n => { r with heap := dictInsert r.heap ρ { n with title := T } }

/-- The Note value the repository's `get_note` presents for an id: the
stored reference dereferenced through the heap. -/
def readNote (r : HeapRepo) (note_id : Nat) : Option Note :=
  (dictGet r.store note_id).bind (dictGet r.heap)

/-- The sort key `lambda n: n.created_at` read through a reference (the key
function receives the stored object itself). -/
def refCreatedAt (h : List (Ref × Note)) (ρ : Ref) : Nat :=
  ((dictGet h ρ).map Note.created_at).getD 0

/-- `list_notes` in the reference-aware model: Python's `sorted` returns a
new list, but its elements are the stored objects themselves — the
repository hands out the stored references, not copies. -/
def list_notes (r : HeapRepo) : List Ref :=
  (dictValues r.store).mergeSort
    (fun a b => decide (refCreatedAt r.heap a ≤ refCreatedAt r.heap b))

/-- `update_note` with explicit allocation: `model_copy` builds a brand-new
object (fresh cell), which is installed in the store; the previous object's
cell is not written. -/
def update_note (r : HeapRepo) (note_id : Nat) (payload : NoteUpdate)
    (now : Nat) : Except RepoError (Ref × HeapRepo) :=
  match dictGet r.store note_id with
  | none => .error (.notFound (notFoundMessage note_id))
  | some ρ =>
    match dictGet r.heap ρ with
    | none => .error (.notFound (notFoundMessage note_id))
    | some note =>
      if payload.title.isNone && payload.content.isNone then
        .error (.validation atLeastOneFieldMessage)
      else
        let updated : Note :=
          { note with
            title := payload.title.getD note.title
            content := payload.content.getD note.content
            updated_at := now }
        .ok (r.nextRef,
          { r with
            store := dictInsert r.store note_id r.nextRef
            heap := dictInsert r.heap r.nextRef updated
            nextRef := r.nextRef + 1 })

/-- The empty heap repository. -/
def emptyRepo : HeapRepo := ⟨[], [], 0, 0⟩

end RefModel

/-- A sample repository used to instantiate universally quantified theorems:
one note with id 0, stored at the fresh-repository state after one create at
time 3. -/
def sampleRepo : NotesRepository :=
  (NotesRepository.create_note ⟨[], 0⟩ ⟨"A", "B"⟩ 3).2

/-- The note stored in `sampleRepo`. -/
def sampleNote : Note := ⟨0, "A", "B", 3, 3⟩

/-! ### Lemmas about the dict model -/

theorem dictGet_insert_self {α : Type} (s : List (Nat × α)) (k : Nat) (v : α) :
    dictGet (dictInsert s k v) k = some v := by
  induction s with
  | nil => simp [dictInsert, dictGet]
  | cons p rest ih =>
    obtain ⟨q, w⟩ := p
    by_cases h : q = k
    · simp [dictInsert, h, dictGet]
    · simp [dictInsert, h, dictGet, ih]

theorem dictGet_insert_ne {α : Type} (s : List (Nat × α)) (k j : Nat) (v : α)
    (h : j ≠ k) : dictGet (dictInsert s k v) j = dictGet s j := by
  induction s with
  | nil => simp [dictInsert, dictGet, Ne.symm h]
  | cons p rest ih =>
    obtain ⟨q, w⟩ := p
    by_cases hq : q = k
    · subst hq
      simp [dictInsert, dictGet, Ne.symm h]
    · simp [dictInsert, hq, dictGet, ih]

theorem dictGet_mem {α : Type} {s : List (Nat × α)} {k : Nat} {v : α}
    (h : dictGet s k = some v) : (k, v) ∈ s := by
  induction s with
  | nil => simp [dictGet] at h
  | cons p rest ih =>
    obtain ⟨q, w⟩ := p
    by_cases hq : q = k
    · subst hq
      simp [dictGet] at h
      subst h
      exact List.mem_cons_self _ _
    · simp [dictGet, hq] at h
      exact List.mem_cons_of_mem _ (ih h)

theorem dictGet_eq_none_iff {α : Type} {s : List (Nat × α)} {k : Nat} :
    dictGet s k = none ↔ k ∉ dictKeys s := by
  induction s with
  | nil => simp [dictGet, dictKeys]
  | cons p rest ih =>
    obtain ⟨q, w⟩ := p
    by_cases hq : q = k
    · subst hq
      simp [dictGet, dictKeys]
    · simp [dictGet, hq, dictKeys, Ne.symm hq] at ih ⊢
      exact ih

theorem mem_dictKeys_insert {α : Type} {s : List (Nat × α)} {k j : Nat}
    {v : α} : j ∈ dictKeys (dictInsert s k v) ↔ j = k ∨ j ∈ dictKeys s := by
  induction s with
  | nil => simp [dictInsert, dictKeys]
  | cons p rest ih =>
    obtain ⟨q, w⟩ := p
    by_cases hq : q = k
    · subst hq
      simp [dictInsert, dictKeys]
    · simp [dictInsert, hq, dictKeys] at ih ⊢
      rw [ih]
      tauto

theorem nodup_dictKeys_insert {α : Type} {s : List (Nat × α)}
    (h : (dictKeys s).Nodup) (k : Nat) (v : α) :
    (dictKeys (dictInsert s k v)).Nodup := by
  induction s with
  | nil => simp [dictInsert, dictKeys]
  | cons p rest ih =>
    obtain ⟨q, w⟩ := p
    simp only [dictKeys, List.map_cons, List.nodup_cons] at h
    by_cases hq : q = k
    · subst hq
      simpa [dictInsert, dictKeys] using h
    · simp only [dictInsert, hq, if_false, dictKeys, List.map_cons,
        List.nodup_cons]
      refine ⟨?_, ih h.2⟩
      intro hmem
      rcases (mem_dictKeys_insert (s := rest) (k := k) (j := q)
          (v := v)).mp hmem with h1 | h2
      · exact hq h1
      · exact h.1 h2

theorem mem_dictInsert {α : Type} {s : List (Nat × α)} {k : Nat} {v : α}
    {p : Nat × α} (h : p ∈ dictInsert s k v) : p = (k, v) ∨ p ∈ s := by
  induction s with
  | nil =>
    simp [dictInsert] at h
    exact Or.inl h
  | cons q rest ih =>
    obtain ⟨q1, w⟩ := q
    by_cases hq : q1 = k
    · subst hq
      rcases (by simpa [dictInsert] using h : p = (q1, v) ∨ p ∈ rest) with
        h1 | h2
      · exact Or.inl h1
      · exact Or.inr (List.mem_cons_of_mem _ h2)
    · rcases (by simpa [dictInsert, hq] using h :
          p = (q1, w) ∨ p ∈ dictInsert rest k v) with h1 | h2
      · exact Or.inr (by simp [h1])
      · rcases ih h2 with h3 | h4
        · exact Or.inl h3
        · exact Or.inr (List.mem_cons_of_mem _ h4)

theorem mem_dictErase {α : Type} {s : List (Nat × α)} {k : Nat}
    {p : Nat × α} (h : p ∈ dictErase s k) : p ∈ s := by
  induction s with
  | nil =>
    simp [dictErase] at h
  | cons q rest ih =>
    obtain ⟨q1, w⟩ := q
    by_cases hq : q1 = k
    · exact List.mem_cons_of_mem _ (by simpa [dictErase, hq] using h)
    · rcases (by simpa [dictErase, hq] using h :
          p = (q1, w) ∨ p ∈ dictErase rest k) with h1 | h2
      · exact by simp [h1]
      · exact List.mem_cons_of_mem _ (ih h2)

theorem dictKeys_erase_sublist {α : Type} (s : List (Nat × α)) (k : Nat) :
    List.Sublist (dictKeys (dictErase s k)) (dictKeys s) := by
  induction s with
  | nil => simp [dictErase]
  | cons q rest ih =>
    obtain ⟨q1, w⟩ := q
    by_cases hq : q1 = k
    · simp only [dictErase, hq, if_true, dictKeys, List.map_cons]
      exact (List.sublist_cons_self _ _)
    · simp only [dictErase, hq, if_false, dictKeys, List.map_cons]
      exact ih.cons₂ _

theorem dictGet_erase_self {α : Type} {s : List (Nat × α)}
    (h : (dictKeys s).Nodup) (k : Nat) : dictGet (dictErase s k) k = none := by
  induction s with
  | nil => simp [dictErase, dictGet]
  | cons q rest ih =>
    obtain ⟨q1, w⟩ := q
    simp only [dictKeys, List.map_cons, List.nodup_cons] at h
    by_cases hq : q1 = k
    · subst hq
      simp only [dictErase, if_true]
      exact dictGet_eq_none_iff.mpr h.1
    · simp [dictErase, hq, dictGet, ih h.2]

theorem dictGet_erase_ne {α : Type} (s : List (Nat × α)) (k j : Nat)
    (h : j ≠ k) : dictGet (dictErase s k) j = dictGet s j := by
  induction s with
  | nil => simp [dictErase]
  | cons q rest ih =>
    obtain ⟨q1, w⟩ := q
    by_cases hq : q1 = k
    · subst hq
      simp [dictErase, dictGet, Ne.symm h]
    · simp [dictErase, hq, dictGet, ih]

/-! ### Inversion lemmas for the repository operations -/

theorem get_note_ok_iff {r : NotesRepository} {i : Nat} {note : Note} :
    r.get_note i = .ok note ↔ dictGet r.store i = some note := by
  unfold NotesRepository.get_note
  cases dictGet r.store i <;> simp

theorem get_note_error_iff {r : NotesRepository} {i : Nat} {e : RepoError} :
    r.get_note i = .error e ↔
      dictGet r.store i = none ∧ e = .notFound (notFoundMessage i) := by
  unfold NotesRepository.get_note
  cases dictGet r.store i <;> simp [eq_comm]

theorem update_note_ok {r r' : NotesRepository} {i : Nat} {p : NoteUpdate}
    {now : Nat} {n : Note}
    (h : r.update_note i p now = .ok (n, r')) :
    ∃ note, dictGet r.store i = some note ∧
      ¬(p.title = none ∧ p.content = none) ∧
      n = { note with
            title := p.title.getD note.title
            content := p.content.getD note.content
            updated_at := now } ∧
      r' = { r with store := dictInsert r.store i n } := by
  unfold NotesRepository.update_note at h
  cases hget : r.get_note i with
  | error e => simp [hget] at h
  | ok note =>
    rw [hget] at h
    simp only at h
    split at h
    · simp at h
    · simp only [Except.ok.injEq, Prod.mk.injEq] at h
      obtain ⟨hn, hr⟩ := h
      refine ⟨note, get_note_ok_iff.mp hget, ?_, hn.symm, ?_⟩
      · rename_i hcond
        simp only [Bool.and_eq_true, Option.isNone_iff_eq_none] at hcond
        simpa using hcond
      · rw [← hr, hn]

theorem delete_note_ok {r r' : NotesRepository} {i : Nat}
    (h : r.delete_note i = .ok r') :
    (dictGet r.store i).isSome ∧ r' = { r with store := dictErase r.store i } := by
  unfold NotesRepository.delete_note at h
  split at h
  · simp at h
  · rename_i hcond
    simp only [Except.ok.injEq] at h
    exact ⟨by simpa [Option.isNone_iff_eq_none, ← Option.ne_none_iff_isSome]
      using hcond, h.symm⟩

/-! ### The reachability invariant -/

theorem reachable_inv {r : NotesRepository} {t : Nat} (h : Reachable r t) :
    StoreInv r t := by
  induction h with
  | init =>
    exact ⟨by simp [dictKeys], by intro p hp; simp at hp⟩
  | tick h hle ih =>
    exact ⟨ih.1, fun p hp =>
      ⟨(ih.2 p hp).1, (ih.2 p hp).2.1, (ih.2 p hp).2.2.1,
       le_trans (ih.2 p hp).2.2.2 hle⟩⟩
  | create h hle ih =>
    rename_i r t t' p
    refine ⟨nodup_dictKeys_insert ih.1 _ _, ?_⟩
    intro q hq
    simp only [NotesRepository.create_note] at hq
    rcases mem_dictInsert hq with h1 | h2
    · subst h1
      simp [NotesRepository.create_note, Note.new_from_create,
        Nat.lt_succ_self]
    · have hx := ih.2 q h2
      exact ⟨hx.1,
        by simpa [NotesRepository.create_note] using
          Nat.lt_succ_of_lt hx.2.1,
        hx.2.2.1, le_trans hx.2.2.2 hle⟩
  | update h hle heq ih =>
    obtain ⟨note, hget, _, hn, hr'⟩ := update_note_ok heq
    subst hr'
    refine ⟨nodup_dictKeys_insert ih.1 _ _, ?_⟩
    intro q hq
    simp only at hq
    rcases mem_dictInsert hq with h1 | h2
    · subst h1
      have hx := ih.2 _ (dictGet_mem hget)
      subst hn
      exact ⟨hx.1, hx.2.1,
        le_trans (le_trans hx.2.2.1 hx.2.2.2) hle,
        le_refl _⟩
    · have hx := ih.2 q h2
      exact ⟨hx.1, hx.2.1, hx.2.2.1, le_trans hx.2.2.2 hle⟩
  | delete h heq ih =>
    obtain ⟨-, hr'⟩ := delete_note_ok heq
    subst hr'
    refine ⟨(dictKeys_erase_sublist _ _).nodup ih.1, ?_⟩
    intro q hq
    exact ih.2 q (mem_dictErase hq)

/-! ### Claims -/

/-- Claim C1: for every stored note with id `i`, an update supplying only a
title `T` succeeds; the resulting stored note has title `T`, the previous
content, the same id and `created_at`, and `updated_at` set to the time of
the mutation; every other note in the store is unchanged. -/
theorem update_title_only (r : NotesRepository) (i : Nat) (note : Note)
    (T : String) (now : Nat) (hg : dictGet r.store i = some note) :
    r.update_note i ⟨some T, none⟩ now =
      .ok ({ note with title := T, updated_at := now },
        { r with store :=
            dictInsert r.store i { note with title := T, updated_at := now } }) ∧
    dictGet (dictInsert r.store i { note with title := T, updated_at := now }) i
      = some { note with title := T, updated_at := now } ∧
    ∀ j, j ≠ i →
      dictGet (dictInsert r.store i { note with title := T, updated_at := now }) j
        = dictGet r.store j := by
  refine ⟨?_, dictGet_insert_self _ _ _,
    fun j hj => dictGet_insert_ne _ _ _ _ hj⟩
  unfold NotesRepository.update_note
  rw [get_note_ok_iff.mpr hg]
  simp

/-- Witness for C1 on the sample repository: updating note 0 with title
only, at time 7, yields the expected note and leaves id 5 alone. -/
theorem update_title_only_witness :
    dictGet sampleRepo.store 0 = some sampleNote ∧
    NotesRepository.update_note sampleRepo 0 ⟨some "A2", none⟩ 7 =
      .ok ({ sampleNote with title := "A2", updated_at := 7 },
        { sampleRepo with
          store := dictInsert sampleRepo.store 0 { sampleNote with
            title := "A2", updated_at := 7 } }) ∧
    dictGet (dictInsert sampleRepo.store 0 { sampleNote with
        title := "A2", updated_at := 7 }) 5
      = dictGet sampleRepo.store 5 :=
  ⟨by decide,
   (update_title_only sampleRepo 0 sampleNote "A2" 7 (by decide)).1,
   (update_title_only sampleRepo 0 sampleNote "A2" 7 (by decide)).2.2 5
     (by decide)⟩

/-- Claim C2: for every stored note with id `i`, an update with both
optional fields absent fails with the `ValidationError` and its message, and
the handler returns the repository state unchanged (the Python code raises
before any mutation). -/
theorem update_empty_payload (r : NotesRepository) (i : Nat) (note : Note)
    (now : Nat) (hg : dictGet r.store i = some note) :
    r.update_note i ⟨none, none⟩ now =
      .error (.validation atLeastOneFieldMessage) ∧
    (Routes.update_note i ⟨none, none⟩ r now).2 = r := by
  have h1 : r.update_note i ⟨none, none⟩ now =
      .error (.validation atLeastOneFieldMessage) := by
    unfold NotesRepository.update_note
    rw [get_note_ok_iff.mpr hg]
    simp
  exact ⟨h1, by simp [Routes.update_note, h1]⟩

/-- Witness for C2 on the sample repository. -/
theorem update_empty_payload_witness :
    dictGet sampleRepo.store 0 = some sampleNote ∧
    NotesRepository.update_note sampleRepo 0 ⟨none, none⟩ 7 =
      .error (.validation atLeastOneFieldMessage) ∧
    (Routes.update_note 0 ⟨none, none⟩ sampleRepo 7).2 = sampleRepo :=
  ⟨by decide,
   (update_empty_payload sampleRepo 0 sampleNote 7 (by decide)).1,
   (update_empty_payload sampleRepo 0 sampleNote 7 (by decide)).2⟩

/-- Claim C10: for every absent id and the update payload with both fields
omitted, `update_note` fails with `NotFoundError`, not `ValidationError`:
the existence check (`get_note`) runs before the at-least-one-field check,
and the state is unchanged. -/
theorem update_absent_not_found (r : NotesRepository) (i : Nat) (now : Nat)
    (hg : dictGet r.store i = none) :
    r.update_note i ⟨none, none⟩ now =
      .error (.notFound (notFoundMessage i)) ∧
    (Routes.update_note i ⟨none, none⟩ r now).2 = r := by
  have h1 : r.update_note i ⟨none, none⟩ now =
      .error (.notFound (notFoundMessage i)) := by
    unfold NotesRepository.update_note NotesRepository.get_note
    rw [hg]
  exact ⟨h1, by simp [Routes.update_note, h1]⟩

/-- Witness for C10: id 5 is absent from the sample repository; the empty
update on it reports not-found. -/
theorem update_absent_not_found_witness :
    dictGet sampleRepo.store 5 = none ∧
    NotesRepository.update_note sampleRepo 5 ⟨none, none⟩ 7 =
      .error (.notFound (notFoundMessage 5)) ∧
    (Routes.update_note 5 ⟨none, none⟩ sampleRepo 7).2 = sampleRepo :=
  ⟨by decide,
   (update_absent_not_found sampleRepo 5 7 (by decide)).1,
   (update_absent_not_found sampleRepo 5 7 (by decide)).2⟩

/-- Claim C3: `list_notes` is total (it is a function), leaves the state
unchanged, and returns exactly the stored notes — a permutation of the store
values — sorted by `created_at` ascending, with ties kept in insertion
order (for each timestamp, filtering the output gives the store values with
that timestamp in their original order). -/
theorem list_notes_spec (r : NotesRepository) :
    List.Perm r.list_notes (dictValues r.store) ∧
    r.list_notes.Pairwise (fun a b => a.created_at ≤ b.created_at) ∧
    (∀ tc : Nat,
      r.list_notes.filter (fun n => decide (n.created_at = tc)) =
        (dictValues r.store).filter (fun n => decide (n.created_at = tc))) ∧
    (Routes.list_notes r).2 = r := by
  have htrans : ∀ a b c : Note,
      decide (a.created_at ≤ b.created_at) = true →
      decide (b.created_at ≤ c.created_at) = true →
      decide (a.created_at ≤ c.created_at) = true := by
    intro a b c h1 h2
    simp only [decide_eq_true_iff] at h1 h2 ⊢
    omega
  have htotal : ∀ a b : Note,
      (decide (a.created_at ≤ b.created_at) ||
        decide (b.created_at ≤ a.created_at)) = true := by
    intro a b
    simp only [Bool.or_eq_true, decide_eq_true_iff]
    exact Nat.le_total _ _
  refine ⟨List.mergeSort_perm _ _, ?_, ?_, rfl⟩
  · exact (List.sorted_mergeSort htrans htotal _).imp
      (fun h => by simpa using h)
  · intro tc
    set p : Note → Bool := fun n => decide (n.created_at = tc) with hp
    set l : List Note := dictValues r.store with hl
    have hc : ((l.filter p).Pairwise
        (fun a b => decide (a.created_at ≤ b.created_at) = true)) := by
      apply List.pairwise_of_forall_mem_list
      intro a ha b hb
      have ha2 := (List.mem_filter.mp ha).2
      have hb2 := (List.mem_filter.mp hb).2
      simp only [hp, decide_eq_true_iff] at ha2 hb2 ⊢
      omega
    have hsub : List.Sublist (l.filter p) (l.mergeSort
        (fun a b => decide (a.created_at ≤ b.created_at))) :=
      List.sublist_mergeSort htrans htotal hc (List.filter_sublist l)
    have hsub2 : List.Sublist ((l.filter p).filter p)
        ((l.mergeSort (fun a b => decide (a.created_at ≤ b.created_at))).filter p) :=
      List.Sublist.filter p hsub
    rw [List.filter_filter] at hsub2
    have hself : (l.filter (fun a => p a && p a)) = l.filter p := by
      simp
    rw [hself] at hsub2
    have hlen : ((l.mergeSort
        (fun a b => decide (a.created_at ≤ b.created_at))).filter p).length =
        (l.filter p).length := by
      rw [← List.countP_eq_length_filter, ← List.countP_eq_length_filter]
      exact List.Perm.countP_eq p (List.mergeSort_perm l _)
    exact (List.Sublist.eq_of_length hsub2 hlen.symm).symm

/-- Claim C4: `create_note` always succeeds, the returned note carries the
freshly generated id (absent from the store in any reachable state),
matching title and content, `created_at = updated_at = now`; the note is
stored, and `get_note` on the new id returns it. -/
theorem create_note_spec (r : NotesRepository) (t : Nat) (p : NoteCreate)
    (now : Nat) (hre : Reachable r t) :
    (r.create_note p now).1.id = r.nextId ∧
    dictGet r.store (r.create_note p now).1.id = none ∧
    (r.create_note p now).1.title = p.title ∧
    (r.create_note p now).1.content = p.content ∧
    (r.create_note p now).1.created_at = now ∧
    (r.create_note p now).1.updated_at = now ∧
    (r.create_note p now).2.get_note (r.create_note p now).1.id =
      .ok (r.create_note p now).1 := by
  have hfresh : dictGet r.store r.nextId = none := by
    rw [dictGet_eq_none_iff]
    intro hmem
    have hinv := (reachable_inv hre).2
    simp only [dictKeys, List.mem_map] at hmem
    obtain ⟨q, hq, hq1⟩ := hmem
    have hlt := (hinv q hq).2.1
    omega
  refine ⟨rfl, hfresh, rfl, rfl, rfl, rfl, ?_⟩
  rw [get_note_ok_iff]
  exact dictGet_insert_self _ _ _

/-- Witness for C4: creating a note in the fresh repository at time 3. -/
theorem create_note_spec_witness :
    Reachable ⟨[], 0⟩ 0 ∧
    ((NotesRepository.create_note ⟨[], 0⟩ ⟨"A", "B"⟩ 3).1.id = 0 ∧
     dictGet (NotesRepository.mk [] 0).store
       (NotesRepository.create_note ⟨[], 0⟩ ⟨"A", "B"⟩ 3).1.id = none ∧
     (NotesRepository.create_note ⟨[], 0⟩ ⟨"A", "B"⟩ 3).1.title = "A" ∧
     (NotesRepository.create_note ⟨[], 0⟩ ⟨"A", "B"⟩ 3).1.content = "B" ∧
     (NotesRepository.create_note ⟨[], 0⟩ ⟨"A", "B"⟩ 3).1.created_at = 3 ∧
     (NotesRepository.create_note ⟨[], 0⟩ ⟨"A", "B"⟩ 3).1.updated_at = 3 ∧
     (NotesRepository.create_note ⟨[], 0⟩ ⟨"A", "B"⟩ 3).2.get_note
        (NotesRepository.create_note ⟨[], 0⟩ ⟨"A", "B"⟩ 3).1.id =
       .ok (NotesRepository.create_note ⟨[], 0⟩ ⟨"A", "B"⟩ 3).1) :=
  ⟨Reachable.init, create_note_spec ⟨[], 0⟩ 0 ⟨"A", "B"⟩ 3 Reachable.init⟩

/-- Claim C5: `get_note` fails with `NotFoundError` exactly when the id is
absent; when present it returns the stored note and the handler leaves the
state unchanged; after a successful delete of the id it reports not-found. -/
theorem get_note_spec (r : NotesRepository) (i : Nat)
    (hnd : (dictKeys r.store).Nodup) :
    (∀ note, dictGet r.store i = some note →
      r.get_note i = .ok note ∧ (Routes.get_note i r).2 = r) ∧
    (dictGet r.store i = none →
      r.get_note i = .error (.notFound (notFoundMessage i))) ∧
    (∀ r', r.delete_note i = .ok r' →
      r'.get_note i = .error (.notFound (notFoundMessage i))) := by
  refine ⟨?_, ?_, ?_⟩
  · intro note hg
    have h1 := get_note_ok_iff.mpr hg
    exact ⟨h1, by simp [Routes.get_note, h1]⟩
  · intro hg
    exact get_note_error_iff.mpr ⟨hg, rfl⟩
  · intro r' hdel
    obtain ⟨-, hr'⟩ := delete_note_ok hdel
    subst hr'
    exact get_note_error_iff.mpr ⟨dictGet_erase_self hnd i, rfl⟩

/-- Witness for C5 on the sample repository: present id 0, absent id 5, and
get after delete. -/
theorem get_note_spec_witness :
    (dictKeys sampleRepo.store).Nodup ∧
    NotesRepository.get_note sampleRepo 0 = .ok sampleNote ∧
    (Routes.get_note 0 sampleRepo).2 = sampleRepo ∧
    NotesRepository.get_note sampleRepo 5 =
      .error (.notFound (notFoundMessage 5)) ∧
    NotesRepository.get_note ⟨[], 1⟩ 0 =
      .error (.notFound (notFoundMessage 0)) :=
  ⟨by decide,
   ((get_note_spec sampleRepo 0 (by decide)).1 sampleNote (by decide)).1,
   ((get_note_spec sampleRepo 0 (by decide)).1 sampleNote (by decide)).2,
   (get_note_spec sampleRepo 5 (by decide)).2.1 (by decide),
   (get_note_spec sampleRepo 0 (by decide)).2.2 ⟨[], 1⟩ rfl⟩

/-- Claim C6: `delete_note` fails with `NotFoundError` and leaves the state
unchanged when the id is absent; otherwise it removes exactly that note
(other ids unaffected), and a second delete of the same id fails with
not-found without reversing the removal. -/
theorem delete_note_spec (r : NotesRepository) (i : Nat)
    (hnd : (dictKeys r.store).Nodup) :
    (dictGet r.store i = none →
      r.delete_note i = .error (.notFound (notFoundMessage i)) ∧
      (Routes.delete_note i r).2 = r) ∧
    (∀ note, dictGet r.store i = some note →
      r.delete_note i = .ok { r with store := dictErase r.store i } ∧
      dictGet (dictErase r.store i) i = none ∧
      (∀ j, j ≠ i → dictGet (dictErase r.store i) j = dictGet r.store j) ∧
      NotesRepository.delete_note { r with store := dictErase r.store i } i =
        .error (.notFound (notFoundMessage i)) ∧
      (Routes.delete_note i { r with store := dictErase r.store i }).2 =
        { r with store := dictErase r.store i }) := by
  constructor
  · intro hg
    have h1 : r.delete_note i = .error (.notFound (notFoundMessage i)) := by
      unfold NotesRepository.delete_note
      rw [hg]
      simp
    exact ⟨h1, by simp [Routes.delete_note, h1]⟩
  · intro note hg
    have h1 : r.delete_note i = .ok { r with store := dictErase r.store i } := by
      unfold NotesRepository.delete_note
      rw [hg]
      simp
    have h2 : dictGet (dictErase r.store i) i = none :=
      dictGet_erase_self hnd i
    have h3 : NotesRepository.delete_note
        { r with store := dictErase r.store i } i =
        .error (.notFound (notFoundMessage i)) := by
      unfold NotesRepository.delete_note
      simp [h2]
    refine ⟨h1, h2, fun j hj => dictGet_erase_ne _ _ _ hj, h3, ?_⟩
    simp [Routes.delete_note, h3]

/-- Witness for C6 on the sample repository: absent id 5, present id 0, and
the second delete. -/
theorem delete_note_spec_witness :
    (dictKeys sampleRepo.store).Nodup ∧
    (NotesRepository.delete_note sampleRepo 5 =
      .error (.notFound (notFoundMessage 5)) ∧
     (Routes.delete_note 5 sampleRepo).2 = sampleRepo) ∧
    NotesRepository.delete_note sampleRepo 0 =
      .ok { sampleRepo with store := dictErase sampleRepo.store 0 } ∧
    dictGet (dictErase sampleRepo.store 0) 0 = none ∧
    dictGet (dictErase sampleRepo.store 0) 5 = dictGet sampleRepo.store 5 ∧
    NotesRepository.delete_note
        { sampleRepo with store := dictErase sampleRepo.store 0 } 0 =
      .error (.notFound (notFoundMessage 0)) :=
  ⟨by decide,
   (delete_note_spec sampleRepo 5 (by decide)).1 (by decide),
   ((delete_note_spec sampleRepo 0 (by decide)).2 sampleNote (by decide)).1,
   ((delete_note_spec sampleRepo 0 (by decide)).2 sampleNote (by decide)).2.1,
   ((delete_note_spec sampleRepo 0 (by decide)).2 sampleNote
     (by decide)).2.2.1 5 (by decide),
   ((delete_note_spec sampleRepo 0 (by decide)).2 sampleNote
     (by decide)).2.2.2.1⟩

/-! ### Helper lemmas for the handler mapping -/

theorem update_note_absent (r : NotesRepository) (i : Nat) (p : NoteUpdate)
    (now : Nat) (hg : dictGet r.store i = none) :
    r.update_note i p now = .error (.notFound (notFoundMessage i)) := by
  unfold NotesRepository.update_note NotesRepository.get_note
  rw [hg]

theorem update_note_validation (r : NotesRepository) (i : Nat) (note : Note)
    (now : Nat) (hg : dictGet r.store i = some note) :
    r.update_note i ⟨none, none⟩ now =
      .error (.validation atLeastOneFieldMessage) := by
  unfold NotesRepository.update_note
  rw [get_note_ok_iff.mpr hg]
  simp

theorem delete_note_absent (r : NotesRepository) (i : Nat)
    (hg : dictGet r.store i = none) :
    r.delete_note i = .error (.notFound (notFoundMessage i)) := by
  unfold NotesRepository.delete_note
  rw [hg]
  simp

theorem delete_note_present (r : NotesRepository) (i : Nat) (note : Note)
    (hg : dictGet r.store i = some note) :
    r.delete_note i = .ok { r with store := dictErase r.store i } := by
  unfold NotesRepository.delete_note
  rw [hg]
  simp

/-- Claim C7: the route handlers map repository outcomes to responses
exactly as the table prescribes: not-found on get/update/delete becomes 404
with the message naming the requested id, the empty-update validation
failure becomes 400 with the at-least-one-field message, successful delete
becomes 204 with empty body, successful get/update/list become 200, and
create becomes 201 with the note representation. -/
theorem handler_error_mapping (r : NotesRepository) (i : Nat) (p : NoteUpdate)
    (c : NoteCreate) (now : Nat) :
    notFoundMessage i = "Note with id " ++ toString i ++ " not found" ∧
    (dictGet r.store i = none →
      Routes.get_note i r = (⟨404, .err (notFoundMessage i)⟩, r) ∧
      Routes.update_note i p r now = (⟨404, .err (notFoundMessage i)⟩, r) ∧
      Routes.delete_note i r = (⟨404, .err (notFoundMessage i)⟩, r)) ∧
    (∀ note, dictGet r.store i = some note →
      Routes.get_note i r = (⟨200, .note note⟩, r) ∧
      (Routes.delete_note i r).1 = ⟨204, .empty⟩ ∧
      (p.title = none → p.content = none →
        Routes.update_note i p r now =
          (⟨400, .err atLeastOneFieldMessage⟩, r)) ∧
      (∀ n r2, r.update_note i p now = .ok (n, r2) →
        Routes.update_note i p r now = (⟨200, .note n⟩, r2))) ∧
    Routes.list_notes r = (⟨200, .notes r.list_notes⟩, r) ∧
    Routes.create_note c r now =
      (⟨201, .note (r.create_note c now).1⟩, (r.create_note c now).2) := by
  refine ⟨rfl, ?_, ?_, rfl, rfl⟩
  · intro hg
    have h1 : r.get_note i = .error (.notFound (notFoundMessage i)) :=
      get_note_error_iff.mpr ⟨hg, rfl⟩
    have h2 := update_note_absent r i p now hg
    have h3 := delete_note_absent r i hg
    exact ⟨by simp [Routes.get_note, h1], by simp [Routes.update_note, h2],
      by simp [Routes.delete_note, h3]⟩
  · intro note hg
    have h1 := get_note_ok_iff.mpr hg
    have h4 := delete_note_present r i note hg
    refine ⟨by simp [Routes.get_note, h1],
      by simp [Routes.delete_note, h4], ?_, ?_⟩
    · intro hpt hpc
      obtain ⟨pt, pc⟩ := p
      simp only at hpt hpc
      subst hpt
      subst hpc
      have h5 := update_note_validation r i note now hg
      simp [Routes.update_note, h5]
    · intro n r2 hup
      simp [Routes.update_note, hup]

/-- Witness for C7 on the sample repository: every row of the mapping table
at a concrete state (id 0 present, id 5 absent). -/
theorem handler_error_mapping_witness :
    dictGet sampleRepo.store 5 = none ∧
    Routes.get_note 5 sampleRepo =
      (⟨404, .err (notFoundMessage 5)⟩, sampleRepo) ∧
    Routes.update_note 5 ⟨none, none⟩ sampleRepo 7 =
      (⟨404, .err (notFoundMessage 5)⟩, sampleRepo) ∧
    Routes.delete_note 5 sampleRepo =
      (⟨404, .err (notFoundMessage 5)⟩, sampleRepo) ∧
    Routes.get_note 0 sampleRepo = (⟨200, .note sampleNote⟩, sampleRepo) ∧
    (Routes.delete_note 0 sampleRepo).1 = ⟨204, .empty⟩ ∧
    Routes.update_note 0 ⟨none, none⟩ sampleRepo 7 =
      (⟨400, .err atLeastOneFieldMessage⟩, sampleRepo) ∧
    Routes.list_notes sampleRepo =
      (⟨200, .notes sampleRepo.list_notes⟩, sampleRepo) ∧
    Routes.create_note ⟨"C", "D"⟩ sampleRepo 9 =
      (⟨201, .note (sampleRepo.create_note ⟨"C", "D"⟩ 9).1⟩,
        (sampleRepo.create_note ⟨"C", "D"⟩ 9).2) := by
  have hm5 := handler_error_mapping sampleRepo 5 ⟨none, none⟩ ⟨"C", "D"⟩ 7
  have hm0 := handler_error_mapping sampleRepo 0 ⟨none, none⟩ ⟨"C", "D"⟩ 9
  have habs := hm5.2.1 (by decide)
  have hpres := hm0.2.2.1 sampleNote (by decide)
  exact ⟨by decide, habs.1, habs.2.1, habs.2.2, hpres.1, hpres.2.1,
    hpres.2.2.1 rfl rfl, hm0.2.2.2.1, hm0.2.2.2.2⟩

/-- Claim C8: in every reachable repository state, every stored note
satisfies `created_at ≤ updated_at`; and for a stored note, a successful
update performed at the current time never decreases `updated_at` (so the
`updated_at` values over successive successful updates are monotonically
non-decreasing). -/
theorem timestamps_monotone (r : NotesRepository) (t : Nat)
    (hre : Reachable r t) :
    (∀ q ∈ r.store, q.2.created_at ≤ q.2.updated_at) ∧
    (∀ i note p now n r', dictGet r.store i = some note → t ≤ now →
      r.update_note i p now = .ok (n, r') →
      note.updated_at ≤ n.updated_at ∧ n.created_at ≤ n.updated_at) := by
  have hinv := reachable_inv hre
  constructor
  · intro q hq
    exact (hinv.2 q hq).2.2.1
  · intro i note p now n r' hg hle hup
    obtain ⟨note2, hg2, -, hn, -⟩ := update_note_ok hup
    rw [hg] at hg2
    injection hg2 with hg2
    subst hg2
    have hx := hinv.2 _ (dictGet_mem hg)
    subst hn
    exact ⟨le_trans hx.2.2.2 hle,
      le_trans (le_trans hx.2.2.1 hx.2.2.2) hle⟩

/-- Witness for C8: the sample repository is reachable at time 3; its note
satisfies the invariant, and updating it at time 7 raises `updated_at`
from 3 to 7. -/
theorem timestamps_monotone_witness :
    sampleNote.created_at ≤ sampleNote.updated_at ∧
    (sampleNote.updated_at ≤ (7 : Nat) ∧ (3 : Nat) ≤ (7 : Nat)) := by
  have hre : Reachable sampleRepo 3 :=
    Reachable.create Reachable.init (Nat.zero_le 3)
  have hm := timestamps_monotone sampleRepo 3 hre
  exact ⟨hm.1 (0, sampleNote) (by decide),
    hm.2 0 sampleNote ⟨some "A2", none⟩ 7 ⟨0, "A2", "B", 3, 7⟩
      ⟨[(0, ⟨0, "A2", "B", 3, 7⟩)], 1⟩ (by decide) (by decide) rfl⟩

/-- Counterexample to claim C9 as stated: in the reference-aware model of
the Python code, `create_note` hands the caller the very object stored in
`_store` (pydantic models are mutable and no copy is made on read), so an
external attribute assignment on the returned Note changes what the store
subsequently presents for the same id: note 0 reads back with title "A"
before the external mutation and title "X" after it. -/
theorem returned_note_aliases_store :
    RefModel.readNote (RefModel.create_note RefModel.emptyRepo ⟨"A", "B"⟩ 0).2 0
      = some ⟨0, "A", "B", 0, 0⟩ ∧
    RefModel.readNote
        (RefModel.setTitle (RefModel.create_note RefModel.emptyRepo ⟨"A", "B"⟩ 0).2
          (RefModel.create_note RefModel.emptyRepo ⟨"A", "B"⟩ 0).1 "X") 0
      = some ⟨0, "X", "B", 0, 0⟩ := by
  exact ⟨rfl, rfl⟩

/-- In the reference-aware model, an external attribute assignment through
a reference the store maps id `j` to is visible in the store's subsequent
read of `j`.  Shared by several conjuncts of the amended C9. -/
theorem refmodel_mutation_visible (r : RefModel.HeapRepo) (j : Nat)
    (ρ : RefModel.Ref) (note : Note) (T : String)
    (h1 : dictGet r.store j = some ρ) (h2 : dictGet r.heap ρ = some note) :
    RefModel.readNote (RefModel.setTitle r ρ T) j =
      some { note with title := T } := by
  unfold RefModel.setTitle RefModel.readNote
  rw [h2]
  simp only [Option.bind]
  rw [h1]
  exact dictGet_insert_self _ _ _

/-- Amended C9: every repository operation hands out direct references to
the stored Note objects, never copies.  `get_note` returns the stored
reference and mutating through it is visible in subsequent reads;
`create_note` returns exactly the reference the store now maps the new id
to; `list_notes` returns exactly the stored references, and mutating a
reference obtained from it is visible; `update_note` returns the reference
now stored for the id, mutating the returned object is visible — but
update is copy-on-update (`model_copy` allocates a fresh object), so a
successful update never mutates a Note object previously handed out. -/
theorem store_returns_references (r : RefModel.HeapRepo) (i : Nat)
    (ρ : RefModel.Ref) (note : Note) (T : String) (c : NoteCreate) (now : Nat)
    (h1 : dictGet r.store i = some ρ) (h2 : dictGet r.heap ρ = some note)
    (h3 : ρ < r.nextRef) :
    RefModel.get_note r i = .ok ρ ∧
    RefModel.readNote (RefModel.setTitle r ρ T) i =
      some { note with title := T } ∧
    dictGet (RefModel.create_note r c now).2.store
        (Note.new_from_create c r.nextId now).id =
      some (RefModel.create_note r c now).1 ∧
    (∀ σ : RefModel.Ref, σ ∈ RefModel.list_notes r ↔ σ ∈ dictValues r.store) ∧
    (∀ σ j note2, σ ∈ RefModel.list_notes r → dictGet r.store j = some σ →
      dictGet r.heap σ = some note2 →
      RefModel.readNote (RefModel.setTitle r σ T) j =
        some { note2 with title := T }) ∧
    (∀ p pnow n r', RefModel.update_note r i p pnow = .ok (n, r') →
      dictGet r'.store i = some n ∧
      (∀ u, dictGet r'.heap n = some u →
        RefModel.readNote (RefModel.setTitle r' n T) i =
          some { u with title := T }) ∧
      dictGet r'.heap ρ = some note) := by
  refine ⟨?_, refmodel_mutation_visible r i ρ note T h1 h2, ?_, ?_, ?_, ?_⟩
  · unfold RefModel.get_note
    rw [h1]
  · exact dictGet_insert_self _ _ _
  · intro σ
    unfold RefModel.list_notes
    exact List.mem_mergeSort
  · intro σ j note2 hmem hσ hnote2
    exact refmodel_mutation_visible r j σ note2 T hσ hnote2
  · intro p pnow n r' hup
    unfold RefModel.update_note at hup
    rw [h1] at hup
    simp only at hup
    rw [h2] at hup
    simp only at hup
    split at hup
    · simp at hup
    · simp only [Except.ok.injEq, Prod.mk.injEq] at hup
      obtain ⟨hn, hr'⟩ := hup
      subst hn
      have hs : dictGet r'.store i = some r.nextRef := by
        rw [← hr']
        exact dictGet_insert_self _ _ _
      refine ⟨hs, ?_, ?_⟩
      · intro u hu
        exact refmodel_mutation_visible r' i r.nextRef u T hs hu
      · rw [← hr']
        simp only
        rw [dictGet_insert_ne _ _ _ _ (Nat.ne_of_lt h3)]
        exact h2

/-- Witness for the amended C9 on a one-note heap repository: each
operation's returned reference aliases the store at concrete inputs. -/
theorem store_returns_references_witness :
    RefModel.get_note (RefModel.create_note RefModel.emptyRepo ⟨"A", "B"⟩ 0).2 0
      = .ok 0 ∧
    RefModel.readNote
        (RefModel.setTitle
          (RefModel.create_note RefModel.emptyRepo ⟨"A", "B"⟩ 0).2 0 "X") 0
      = some { (⟨0, "A", "B", 0, 0⟩ : Note) with title := "X" } ∧
    dictGet (RefModel.create_note
          (RefModel.create_note RefModel.emptyRepo ⟨"A", "B"⟩ 0).2
          ⟨"C", "D"⟩ 5).2.store
        (Note.new_from_create ⟨"C", "D"⟩ 1 5).id =
      some (RefModel.create_note
          (RefModel.create_note RefModel.emptyRepo ⟨"A", "B"⟩ 0).2
          ⟨"C", "D"⟩ 5).1 ∧
    0 ∈ RefModel.list_notes (RefModel.create_note RefModel.emptyRepo ⟨"A", "B"⟩ 0).2 ∧
    dictGet (RefModel.HeapRepo.mk [(0, 1)]
        [(0, ⟨0, "A", "B", 0, 0⟩), (1, ⟨0, "A", "C", 0, 9⟩)] 1 2).store 0
      = some 1 ∧
    RefModel.readNote
        (RefModel.setTitle (RefModel.HeapRepo.mk [(0, 1)]
          [(0, ⟨0, "A", "B", 0, 0⟩), (1, ⟨0, "A", "C", 0, 9⟩)] 1 2) 1 "X") 0
      = some { (⟨0, "A", "C", 0, 9⟩ : Note) with title := "X" } ∧
    dictGet (RefModel.HeapRepo.mk [(0, 1)]
        [(0, ⟨0, "A", "B", 0, 0⟩), (1, ⟨0, "A", "C", 0, 9⟩)] 1 2).heap 0
      = some ⟨0, "A", "B", 0, 0⟩ := by
  have hm := store_returns_references
    (RefModel.create_note RefModel.emptyRepo ⟨"A", "B"⟩ 0).2 0 0
    ⟨0, "A", "B", 0, 0⟩ "X" ⟨"C", "D"⟩ 5 (by decide) (by decide) (by decide)
  have hup := hm.2.2.2.2.2 ⟨none, some "C"⟩ 9 1
    ⟨[(0, 1)], [(0, ⟨0, "A", "B", 0, 0⟩), (1, ⟨0, "A", "C", 0, 9⟩)], 1, 2⟩
    rfl
  exact ⟨hm.1, hm.2.1, hm.2.2.1,
    (hm.2.2.2.1 0).mpr (by decide),
    hup.1, hup.2.1 ⟨0, "A", "C", 0, 9⟩ rfl, hup.2.2⟩

end NotesApp
